import Mathlib

/-!
Shallow embedding of the tool-orchestration core of the agent-server Go
repository (packages internal/tools, internal/context, internal/services),
together with proofs about the claims of its specification.

Conventions of the embedding:
* Go "interface{}" values that flow through tool inputs, configs and results
  are modelled by the inductive type Value.  Go's several numeric runtime
  types (float64, float32, int, int32, int64) are all represented by one
  numeric constructor carrying a rational; Go truncates float-to-int
  conversions toward zero, which is mirrored explicitly where it occurs.
* Go maps used as inputs/configs are modelled as association lists keyed by
  String together with a lookup function mirroring map indexing.
* Regular-expression patterns are modelled as compiled match predicates
  (String to Bool); only well-formed patterns are represented.
* Wall-clock durations are not modelled; fields derived from time.Since are
  dropped from the embedded result type.
-/

namespace GoAgent

/-- Runtime value carried by a Go interface-typed variable, as produced by
JSON decoding: null, booleans, numbers, strings, objects, arrays. -/
inductive Value where
  | vNull : Value
  | vBool (b : Bool) : Value
  | vNum (q : ℚ) : Value
  | vStr (s : String) : Value
  | vObj (fields : List (String × Value)) : Value
  | vArr (elems : List Value) : Value

/-- A Go map[string]interface argument map, as an association list. -/
abbrev Input := List (String × Value)

/-- Indexing a Go map: the value stored at a key, if present.  Mirrors the
comma-ok form m[k] on an association list with unique keys. -/
def mapGet (m : Input) (k : String) : Option Value :=
  match m with
  | [] => none
  | (k', v) :: rest => if k' = k then some v else mapGet rest k

/-- Whether a byte sequence starts with the given needle. -/
def charsStartWith : List Char → List Char → Bool
  | [], _ => true
  | _ :: _, [] => false
  | a :: as, b :: bs => a = b && charsStartWith as bs

/-- Substring containment on character lists, mirroring strings.Contains. -/
def charsContain (needle : List Char) : List Char → Bool
  | [] => needle.isEmpty
  | c :: tl => charsStartWith needle (c :: tl) || charsContain needle tl

/-- strings.Contains: whether substr occurs inside s. -/
def strContains (s substr : String) : Bool :=
  charsContain substr.toList s.toList

/-- strings.ToLower.  Implemented over the character list so that it
evaluates by kernel reduction; the repository only lowercases ASCII
keyword and boolean strings. -/
def strToLower (s : String) : String :=
  String.mk (s.data.map Char.toLower)

/-- Numeric value of a list of decimal digit characters. -/
def natOfDigits (cs : List Char) : Nat :=
  cs.foldl (fun acc c => acc * 10 + (c.toNat - 48)) 0

/-- strconv.ParseFloat on plain decimal forms: an optional sign, an integer
part, an optional fractional part, with at least one digit overall.
Exponent, hexadecimal and infinity forms accepted by Go do not occur in
this repository's inputs and are not modelled. -/
def parseNumber (s : String) : Option ℚ :=
  let cs := s.toList
  let signed : Bool × List Char :=
    match cs with
    | c :: tl => if c = '-' then (true, tl) else if c = '+' then (false, tl) else (false, cs)
    | [] => (false, [])
  let neg := signed.1
  let rest := signed.2
  let intPart := rest.takeWhile Char.isDigit
  let afterInt := rest.dropWhile Char.isDigit
  let build (ip fp : List Char) : ℚ :=
    let mag : ℚ := (natOfDigits ip : ℚ) + (natOfDigits fp : ℚ) / ((10 : ℚ) ^ fp.length)
    if neg then -mag else mag
  match afterInt with
  | [] => if intPart.isEmpty then none else some (build intPart [])
  | '.' :: afterDot =>
    let fracPart := afterDot.takeWhile Char.isDigit
    let afterFrac := afterDot.dropWhile Char.isDigit
    if afterFrac.isEmpty && !(intPart.isEmpty && fracPart.isEmpty) then
      some (build intPart fracPart)
    else none
  | _ => none

/-- Go's int(f) conversion for a float modelled as a rational: truncation
toward zero. -/
def truncToInt (q : ℚ) : Int :=
  q.num.tdiv (q.den : Int)

namespace tools

/-- Parameter of a tool schema (internal/tools/interface.go).  The regex
pattern is carried as its compiled match predicate; none means the pattern
field is empty. -/
structure Parameter where
  name : String
  type : String
  required : Bool
  default : Option Value := none
  enum : List String := []
  minimum : Option ℚ := none
  maximum : Option ℚ := none
  pattern : Option (String → Bool) := none

/-- Tool schema: name, description and ordered parameter list. -/
structure Schema where
  name : String
  description : String := ""
  parameters : List Parameter

/-- ValidationError from internal/tools/errors.go (parameter, message, and
the offending value). -/
structure ValidationError where
  parameter : String
  message : String
  value : Option Value

/-- NewValidationError constructor. -/
def NewValidationError (parameter message : String) (value : Option Value) : ValidationError :=
  ⟨parameter, message, value⟩

/-- findParameter: the first schema parameter with the given name. -/
def findParameter (parameters : List Parameter) (name : String) : Option Parameter :=
  match parameters with
  | [] => none
  | p :: ps => if p.name = name then some p else findParameter ps name

/-- validateStringParameter: string type check, enum membership, pattern
match.  Go additionally reports an error for a pattern that fails to
compile; only compiled patterns are represented here. -/
def validateStringParameter (param : Parameter) (value : Value) : Option ValidationError :=
  match value with
  | .vStr str =>
    if 0 < param.enum.length ∧ str ∉ param.enum then
      some (NewValidationError param.name "value must be one of the enum values" (some value))
    else
      match param.pattern with
      | some matcher =>
        if matcher str then none
        else some (NewValidationError param.name "value does not match pattern" (some value))
      | none => none
  | _ => some (NewValidationError param.name "expected string value" (some value))

/-- validateNumberParameter: accepts numeric runtime types and numeric
strings, then checks the minimum/maximum bounds. -/
def validateNumberParameter (param : Parameter) (value : Value) : Option ValidationError :=
  let parsed : Option ℚ :=
    match value with
    | .vNum q => some q
    | .vStr s => parseNumber s
    | _ => none
  match parsed with
  | none => some (NewValidationError param.name "expected number value" (some value))
  | some num =>
    match param.minimum with
    | some lo =>
      if num < lo then some (NewValidationError param.name "value below minimum" (some value))
      else
        match param.maximum with
        | some hi =>
          if num > hi then some (NewValidationError param.name "value above maximum" (some value))
          else none
        | none => none
    | none =>
      match param.maximum with
      | some hi =>
        if num > hi then some (NewValidationError param.name "value above maximum" (some value))
        else none
      | none => none

/-- validateBooleanParameter: booleans, or the case-insensitive strings
true / false. -/
def validateBooleanParameter (param : Parameter) (value : Value) : Option ValidationError :=
  match value with
  | .vBool _ => none
  | .vStr s =>
    if strToLower s = "true" ∨ strToLower s = "false" then none
    else some (NewValidationError param.name "expected boolean value" (some value))
  | _ => some (NewValidationError param.name "expected boolean value" (some value))

/-- validateObjectParameter: maps pass; everything else is rejected.  The Go
reflect-based acceptance of struct values cannot arise from JSON-decoded
input and is not modelled. -/
def validateObjectParameter (param : Parameter) (value : Value) : Option ValidationError :=
  match value with
  | .vObj _ => none
  | _ => some (NewValidationError param.name "expected object value" (some value))

/-- validateArrayParameter: slices and arrays pass; everything else is
rejected. -/
def validateArrayParameter (param : Parameter) (value : Value) : Option ValidationError :=
  match value with
  | .vArr _ => none
  | _ => some (NewValidationError param.name "expected array value" (some value))

/-- validateParameter: nil handling, then dispatch on the declared type;
an unsupported declared type is itself a validation error. -/
def validateParameter (param : Parameter) (value : Value) : Option ValidationError :=
  match value with
  | .vNull =>
    if param.required then
      some (NewValidationError param.name "required parameter cannot be nil" (some .vNull))
    else none
  | v =>
    if param.type = "string" then validateStringParameter param v
    else if param.type = "number" then validateNumberParameter param v
    else if param.type = "boolean" then validateBooleanParameter param v
    else if param.type = "object" then validateObjectParameter param v
    else if param.type = "array" then validateArrayParameter param v
    else some (NewValidationError param.name "unsupported parameter type" (some v))

/-- First pass of ValidateInput: every required parameter must be present in
the input map. -/
def requiredCheck (params : List Parameter) (input : Input) : Option ValidationError :=
  match params with
  | [] => none
  | p :: ps =>
    if p.required && (mapGet input p.name).isNone then
      some (NewValidationError p.name "required parameter missing" none)
    else requiredCheck ps input

/-- Second pass of ValidateInput: each provided entry must name a declared
parameter and its value must validate. -/
def checkEntries (params : List Parameter) (entries : Input) : Option ValidationError :=
  match entries with
  | [] => none
  | (key, value) :: rest =>
    match findParameter params key with
    | none => some (NewValidationError key "unknown parameter" (some value))
    | some p =>
      match validateParameter p value with
      | some e => some e
      | none => checkEntries params rest

/-- ValidateInput from internal/tools/interface.go: required-parameter check
followed by per-entry unknown-key and content checks.  Go ranges over the
input map in unspecified order; the embedding walks the association list
in order, which can change which violation is reported first but not
whether one is reported. -/
def ValidateInput (schema : Schema) (input : Input) : Option ValidationError :=
  match requiredCheck schema.parameters input with
  | some e => some e
  | none => checkEntries schema.parameters input

/-- Rendering of a value by fmt.Sprintf with the %v verb, used by
convertValue when coercing a non-string to the string type.  Integral
numbers render exactly as in Go; the decimal rendering of non-integral
numbers and the composite rendering of objects and arrays are approximated,
and no theorem depends on their exact spelling. -/
def goFormat (v : Value) : String :=
  match v with
  | .vNull => "<nil>"
  | .vBool b => if b then "true" else "false"
  | .vNum q => if q.den = 1 then toString q.num else toString q
  | .vStr s => s
  | .vObj _ => "map"
  | .vArr _ => "array"

/-- convertValue from internal/tools/interface.go: coerce a value to the
canonical representation of the expected type, or fail with a conversion
message. -/
def convertValue (expectedType : String) (value : Value) : Except String Value :=
  match value with
  | .vNull => .ok .vNull
  | v =>
    if expectedType = "string" then
      match v with
      | .vStr s => .ok (.vStr s)
      | _ => .ok (.vStr (goFormat v))
    else if expectedType = "number" then
      match v with
      | .vNum q => .ok (.vNum q)
      | .vStr s =>
        match parseNumber s with
        | some q => .ok (.vNum q)
        | none => .error "cannot convert to number"
      | _ => .error "cannot convert to number"
    else if expectedType = "boolean" then
      match v with
      | .vBool b => .ok (.vBool b)
      | .vStr s =>
        if strToLower s = "true" then .ok (.vBool true)
        else if strToLower s = "false" then .ok (.vBool false)
        else .error "cannot convert to boolean"
      | _ => .error "cannot convert to boolean"
    else .ok v

/-- Body of SanitizeInput: walk the schema parameters in order, fill in
defaults for absent parameters that declare one, skip other absent
parameters, and convert present values, failing on the first impossible
conversion. -/
def sanitizeParams (params : List Parameter) (input : Input) : Except ValidationError Input :=
  match params with
  | [] => .ok []
  | p :: ps =>
    match mapGet input p.name with
    | none =>
      match p.default with
      | some d =>
        match sanitizeParams ps input with
        | .ok rest => .ok ((p.name, d) :: rest)
        | .error e => .error e
      | none => sanitizeParams ps input
    | some v =>
      match convertValue p.type v with
      | .error msg => .error (NewValidationError p.name msg (some v))
      | .ok converted =>
        match sanitizeParams ps input with
        | .ok rest => .ok ((p.name, converted) :: rest)
        | .error e => .error e

/-- SanitizeInput from internal/tools/interface.go.  The sanitized Go map is
represented as an association list in schema parameter order; only its
key-value content is observable. -/
def SanitizeInput (schema : Schema) (input : Input) : Except ValidationError Input :=
  sanitizeParams schema.parameters input

/-- Result of a tool execution (internal/tools/interface.go).  The Duration
field, filled from wall-clock time, is not modelled. -/
structure Result where
  success : Bool
  data : Option Value := none
  error : String := ""
  errorCode : String := ""
  metadata : List (String × Value) := []

/-- ErrorResult helper from internal/tools/base.go (without metadata). -/
def ErrorResult (errorCode message : String) : Result :=
  { success := false, error := message, errorCode := errorCode }

/-- Outcome of running a tool body: it either returns a (possibly nil)
result pointer, or panics with some value. -/
inductive BodyOutcome where
  | returns (r : Option Result) : BodyOutcome
  | panics (v : Value) : BodyOutcome

/-- A tool built on BaseTool (internal/tools/base.go): its schema, the
behaviour of its execute closure on sanitized input, and the outcome of its
availability predicate.  Every tool of the repository is such a tool. -/
structure BaseTool where
  name : String
  schema : Schema
  executeFunc : Input → BodyOutcome
  available : Bool := true

/-- Scheduling environment of one tool execution: whether the context was
already done at the pre-execution check, and whether the context became
done (its deadline elapsed, or it was cancelled) before the body's outcome
was delivered on the done channel.  These two booleans are the shallow
embedding of the two select statements in BaseTool.Execute. -/
structure ExecEnv where
  cancelled : Bool := false
  timedOut : Bool := false

/-- BaseTool.Execute from internal/tools/base.go: sanitize, check
cancellation, run the body in a recovering task, and race its completion
against the context deadline.  The validation error message quotes the
parameter name in Go; the quote characters are omitted here. -/
def BaseTool.Execute (bt : BaseTool) (env : ExecEnv) (input : Input) : Result :=
  match SanitizeInput bt.schema input with
  | .error err =>
    { success := false
      error := "validation error for parameter " ++ err.parameter ++ ": " ++ err.message
      errorCode := "VALIDATION_ERROR" }
  | .ok sanitized =>
    if env.cancelled then
      { success := false, error := "execution cancelled", errorCode := "CANCELLED" }
    else if env.timedOut then
      { success := false, error := "execution timeout", errorCode := "TIMEOUT" }
    else
      match bt.executeFunc sanitized with
      | .panics r =>
        { success := false
          error := "tool execution panicked"
          errorCode := "PANIC"
          metadata := [("panic", r)] }
      | .returns none =>
        { success := false, error := "tool returned nil result", errorCode := "NIL_RESULT" }
      | .returns (some result) => result

/-- Lookup in the tool registry map (internal/tools/interface.go,
Registry.Get), with the registry modelled as an association list from tool
name to its BaseTool. -/
def registryGet (registry : List (String × BaseTool)) (name : String) : Option BaseTool :=
  match registry with
  | [] => none
  | (k, t) :: rest => if k = name then some t else registryGet rest name

/-- Executor.Execute from internal/tools/interface.go: registry lookup,
availability check, validation, then the tool's Execute.  The session id,
request id and the written-back duration do not influence the result value
and are not modelled. -/
def Executor.Execute (registry : List (String × BaseTool)) (env : ExecEnv)
    (toolName : String) (input : Input) : Result :=
  match registryGet registry toolName with
  | none => { success := false, error := "tool not found", errorCode := "TOOL_NOT_FOUND" }
  | some tool =>
    if !tool.available then
      { success := false, error := "tool not available", errorCode := "TOOL_UNAVAILABLE" }
    else
      match ValidateInput tool.schema input with
      | some err =>
        { success := false
          error := "validation error for parameter " ++ err.parameter ++ ": " ++ err.message
          errorCode := "VALIDATION_ERROR" }
      | none => BaseTool.Execute tool env input

/-- CallInfo from internal/tools/interface.go. -/
structure CallInfo where
  toolName : String
  arguments : Input
  callID : String

/-- One batched call together with its per-call scheduling environment (each
call of a batch runs as its own goroutine with its own deadline race). -/
structure BatchCall where
  info : CallInfo
  env : ExecEnv

/-- Assignment into the Go results map: replace the entry at the key if one
exists, otherwise append a new entry. -/
def mapInsert (m : List (String × Result)) (k : String) (v : Result) : List (String × Result) :=
  match m with
  | [] => [(k, v)]
  | (k', v') :: rest => if k' = k then (k, v) :: rest else (k', v') :: mapInsert rest k v

/-- Result-map lookup, mirroring mapGet for the results map. -/
def resultsGet (m : List (String × Result)) (k : String) : Option Result :=
  match m with
  | [] => none
  | (k', v) :: rest => if k' = k then some v else resultsGet rest k

/-- Executor.ExecuteMultiple from internal/tools/interface.go: every call is
executed independently and its result is keyed by the call id in the
results map.  The order in which the goroutines deliver their results on
the channel is arbitrary, so the collection phase is modelled over an
arbitrary arrival order of the batch, to be quantified as a permutation of
the submitted calls. -/
def Executor.ExecuteMultiple (registry : List (String × BaseTool))
    (arrivals : List BatchCall) : List (String × Result) :=
  arrivals.foldl
    (fun results c =>
      mapInsert results c.info.callID
        (Executor.Execute registry c.env c.info.toolName c.info.arguments))
    []

end tools

namespace ctx

/-- Conversation message as consumed by the context strategies
(internal/models.Message restricted to the fields the strategies read or
build: role and content). -/
structure Message where
  role : String
  content : String
deriving DecidableEq

/-- Reading an integer option from a strategy config map: an int is used
directly, a float is truncated, anything else leaves the default.  Both Go
runtime cases (int and float64) are carried by the numeric value
constructor; truncation toward zero is the identity on integral values. -/
def getIntConfig (config : Input) (key : String) (deflt : Int) : Int :=
  match mapGet config key with
  | some (.vNum q) => truncToInt q
  | _ => deflt

/-- buildSystemMessage from internal/context/last_n.go: concatenation of
the two prompts, or a generic fallback when both are empty. -/
def buildSystemMessage (systemPrompt agentPrompt : String) : String :=
  if systemPrompt = "" && agentPrompt = "" then "You are a helpful AI assistant."
  else if systemPrompt = "" then agentPrompt
  else if agentPrompt = "" then systemPrompt
  else systemPrompt ++ "\n\n" ++ agentPrompt

/-- LastNStrategy.BuildContext from internal/context/last_n.go. -/
def lastNBuildContext (systemPrompt agentPrompt : String) (messages : List Message)
    (config : Input) : Except String (List Message) :=
  let count := getIntConfig config "count" 10
  if count ≤ 0 then .error "count must be positive"
  else
    let startIndex : Int := if (messages.length : Int) > count then (messages.length : Int) - count else 0
    .ok (Message.mk "system" (buildSystemMessage systemPrompt agentPrompt)
          :: messages.drop startIndex.toNat)

/-- SlidingWindowStrategy.BuildContext from
internal/context/sliding_window.go. -/
def slidingWindowBuildContext (systemPrompt agentPrompt : String) (messages : List Message)
    (config : Input) : Except String (List Message) :=
  let windowSize := getIntConfig config "window_size" 5
  let overlap := getIntConfig config "overlap" 2
  if windowSize ≤ 0 then .error "window_size must be positive"
  else if overlap < 0 ∨ overlap ≥ windowSize then
    .error "overlap must be between 0 and window_size-1"
  else
    let sys := Message.mk "system" (buildSystemMessage systemPrompt agentPrompt)
    if (messages.length : Int) ≤ windowSize then .ok (sys :: messages)
    else
      let start : Int := (messages.length : Int) - windowSize
      let adjusted : Int × Int :=
        if start > overlap then (start - overlap, windowSize + overlap)
        else (0, (messages.length : Int))
      .ok (sys :: (messages.drop adjusted.1.toNat).take adjusted.2.toNat)

/-- The keys of the topicWords map in
internal/context/summarize.go, SummarizeStrategy.extractTopics. -/
def topicKeys : List String :=
  ["code", "programming", "bug", "error", "help", "question", "problem", "solution"]

/-- Whether a topic keyword occurs in the lowercased content of any of the
messages: the flag the first loop of extractTopics computes per key. -/
def topicFound (messages : List Message) (topic : String) : Bool :=
  messages.any (fun m => strContains (strToLower m.content) topic)

/-- extractTopics from internal/context/summarize.go.  The collection loop
ranges over the topicWords map, whose iteration order Go randomizes; that
order is passed in explicitly as a permutation of topicKeys. -/
def extractTopics (order : List String) (messages : List Message) : List String :=
  order.filter (topicFound messages)

/-- createSimpleSummary from internal/context/summarize.go: role counts
plus keyword-based topic hints. -/
def createSimpleSummary (order : List String) (messages : List Message) : String :=
  if messages.isEmpty then ""
  else
    let userMessages := (messages.filter (fun m => m.role = "user")).length
    let assistantMessages := (messages.filter (fun m => m.role = "assistant")).length
    let base := "The conversation included " ++ toString userMessages ++
      " user messages and " ++ toString assistantMessages ++ " assistant responses"
    let topics := extractTopics order messages
    let withTopics :=
      if topics.length > 0 then
        base ++ ". Topics discussed: " ++ String.intercalate ", " topics
      else base
    withTopics ++ "."

/-- SummarizeStrategy.BuildContext from internal/context/summarize.go. -/
def summarizeBuildContext (order : List String) (systemPrompt agentPrompt : String)
    (messages : List Message) (config : Input) : Except String (List Message) :=
  let maxContextLength := getIntConfig config "max_context_length" 20
  let keepRecent := getIntConfig config "keep_recent" 5
  if maxContextLength ≤ 0 ∨ keepRecent ≤ 0 then
    .error "max_context_length and keep_recent must be positive"
  else
    let sys := Message.mk "system" (buildSystemMessage systemPrompt agentPrompt)
    if (messages.length : Int) ≤ maxContextLength then .ok (sys :: messages)
    else
      let messagesToSummarize : Int := (messages.length : Int) - keepRecent
      if messagesToSummarize ≤ 0 then .ok (sys :: messages)
      else
        let oldMessages := messages.take messagesToSummarize.toNat
        let recentMessages := messages.drop messagesToSummarize.toNat
        let summary := createSimpleSummary order oldMessages
        let withSummary :=
          if summary ≠ "" then
            [sys, Message.mk "system" ("Previous conversation summary: " ++ summary)]
          else [sys]
        .ok (withSummary ++ recentMessages)

/-- Dispatch through the strategy registry built by NewStrategyRegistry
(internal/context/strategy.go): the three registered strategies by name;
none models a name absent from the registry.  The order argument is the
map iteration order consumed by the summarize strategy; the other two
ignore it. -/
def strategyBuildContext (name : String) (order : List String)
    (systemPrompt agentPrompt : String) (messages : List Message) (config : Input) :
    Option (Except String (List Message)) :=
  if name = "last_n" then some (lastNBuildContext systemPrompt agentPrompt messages config)
  else if name = "sliding_window" then
    some (slidingWindowBuildContext systemPrompt agentPrompt messages config)
  else if name = "summarize" then
    some (summarizeBuildContext order systemPrompt agentPrompt messages config)
  else none

end ctx

namespace services

/-- Escape a string for inclusion in a JSON literal (quote and backslash;
other characters of this repository's payloads need no escaping). -/
def jsonEscape (s : String) : String :=
  s.toList.foldl
    (fun acc c =>
      if c = '"' then acc ++ "\\\""
      else if c = '\\' then acc ++ "\\\\"
      else acc.push c) ""

mutual

/-- Rendering of a value by encoding/json.Marshal.  Top-level maps are
emitted with their fields in the order the caller lists them (Go sorts map
keys; call sites below list fields already sorted); the decimal rendering
of non-integral numbers is approximated and no theorem depends on it. -/
def jsonValue : Value → String
  | .vNull => "null"
  | .vBool b => if b then "true" else "false"
  | .vNum q => if q.den = 1 then toString q.num else toString q
  | .vStr s => "\"" ++ jsonEscape s ++ "\""
  | .vObj fields => "\x7b" ++ jsonFields fields ++ "\x7d"
  | .vArr elems => "[" ++ jsonElems elems ++ "]"

/-- Comma-separated JSON rendering of object fields. -/
def jsonFields : List (String × Value) → String
  | [] => ""
  | [(k, v)] => "\"" ++ jsonEscape k ++ "\":" ++ jsonValue v
  | (k, v) :: rest => "\"" ++ jsonEscape k ++ "\":" ++ jsonValue v ++ "," ++ jsonFields rest

/-- Comma-separated JSON rendering of array elements. -/
def jsonElems : List Value → String
  | [] => ""
  | [v] => jsonValue v
  | v :: rest => jsonValue v ++ "," ++ jsonElems rest

end

/-- A tool call requested by the model (internal/models.LLMToolCall).  The
Arguments field is a JSON string in Go; it is modelled by the outcome of
the json.Unmarshal the tool service applies to it: none stands for a
malformed arguments string. -/
structure LLMToolCall where
  id : String
  name : String
  arguments : Option Input

/-- Result of one requested tool call
(internal/models.ToolCallResult; the wall-clock duration is dropped). -/
structure ToolCallResult where
  id : String
  toolName : String
  success : Bool
  result : Option Value
  error : String

/-- Environment of the tool service for one session: the tool registry and
the outcome of resolving the session to its agent id (none models a failed
session lookup). -/
structure ToolServiceEnv where
  registry : List (String × tools.BaseTool)
  agentID : Option String

/-- executeToolWithContext from internal/services/tool_service.go: registry
lookup, availability check, then the tool's Execute on the parsed
arguments.  Note that unlike Executor.Execute this path performs no
schema validation before the tool's own Execute. -/
def executeToolWithContext (ts : ToolServiceEnv) (env : tools.ExecEnv)
    (toolName : String) (arguments : Input) : tools.Result :=
  match tools.registryGet ts.registry toolName with
  | none => tools.ErrorResult "TOOL_NOT_FOUND" ("Tool " ++ toolName ++ " not found")
  | some tool =>
    if !tool.available then
      tools.ErrorResult "TOOL_UNAVAILABLE" ("Tool " ++ toolName ++ " is not available")
    else tools.BaseTool.Execute tool env arguments

/-- executeSingleToolCall from internal/services/tool_service.go: malformed
arguments and a failed agent lookup are converted into failed results; an
executable call is run and its outcome copied into a ToolCallResult. -/
def executeSingleToolCall (ts : ToolServiceEnv) (call : LLMToolCall)
    (env : tools.ExecEnv) : ToolCallResult :=
  match call.arguments with
  | none =>
    { id := call.id, toolName := call.name, success := false, result := none
      error := "Invalid tool arguments" }
  | some arguments =>
    match ts.agentID with
    | none =>
      { id := call.id, toolName := call.name, success := false, result := none
        error := "Failed to get agent ID" }
    | some _ =>
      let r := executeToolWithContext ts env call.name arguments
      { id := call.id, toolName := call.name, success := r.success, result := r.data
        error := r.error }

/-- ToolService.ExecuteToolCalls from internal/services/tool_service.go:
one result per call in submission order.  Each call carries its own
scheduling environment.  The Go function also returns an error value that
is always nil, so the embedding returns the result slice alone. -/
def ExecuteToolCalls (ts : ToolServiceEnv)
    (calls : List (LLMToolCall × tools.ExecEnv)) : List ToolCallResult :=
  calls.map (fun c => executeSingleToolCall ts c.1 c.2)

/-- Tool-result message for the LLM context (internal/models.ToolMessage). -/
structure ToolMessage where
  role : String
  content : String
  toolCallID : String

/-- The marshaled content of one tool-result message: success flag plus
either the payload or the error, with keys in the sorted order
json.Marshal emits for a Go map. -/
def toolResultContent (result : ToolCallResult) : String :=
  if result.success then
    jsonValue (.vObj [("result", (result.result).getD .vNull), ("success", .vBool true)])
  else
    jsonValue (.vObj [("error", .vStr result.error), ("success", .vBool false)])

/-- ToolService.CreateToolResultMessages from
internal/services/tool_service.go. -/
def CreateToolResultMessages (results : List ToolCallResult) : List ToolMessage :=
  results.map (fun result =>
    { role := "tool", content := toolResultContent result, toolCallID := result.id })

/-- The provider response content and finish reason of one LLM chat call. -/
structure ChatResp where
  content : String
  finishReason : String := ""

/-- Outcome of one iteration's provider phase: registry lookup failure,
unavailability, chat error, or a response.  A response carries the tool
calls parseToolCallsFromResponse extracts from its metadata; a parse
failure is logged and treated as no tool calls, so it is represented by an
empty list. -/
inductive ProviderOutcome where
  | noProvider : ProviderOutcome
  | unavailable : ProviderOutcome
  | chatErr : ProviderOutcome
  | ok (resp : ChatResp) (toolCalls : List (LLMToolCall × tools.ExecEnv)) : ProviderOutcome

/-- Abort reasons of ChatService.processWithToolCalls.  The Go code reports
them as wrapped error values; the final one corresponds to the
MAX_ITERATIONS_EXCEEDED outcome, the error returned after the loop
exhausts its bound. -/
inductive TurnError where
  | unknownStrategy : TurnError
  | buildContextFailed : TurnError
  | providerNotFound : TurnError
  | providerUnavailable : TurnError
  | chatFailed : TurnError
  | saveFailed : TurnError
  | maxIterationsExceeded : TurnError
deriving DecidableEq

/-- Collaborator environment of one turn of
ChatService.processWithToolCalls: the context strategy resolved from the
session (none models an unknown strategy name, the function models
BuildContext with the session prompts and config applied), the provider
phase outcome per iteration, the tool service, and the persistence
outcomes of the assistant message and of each tool message per iteration. -/
structure TurnEnv where
  strategy : Option (List ctx.Message → Except String (List ctx.Message))
  provider : Nat → ProviderOutcome
  toolService : ToolServiceEnv
  saveAssistant : Nat → Bool
  saveToolMessage : Nat → Nat → Bool

/-- getFinishReason from the chat service. -/
def getFinishReason (resp : ChatResp) (hasToolCalls : Bool) : String :=
  if hasToolCalls then "tool_calls"
  else if resp.finishReason ≠ "" then resp.finishReason
  else "stop"

/-- The tool-result messages appended to the working conversation: a failed
save of an individual tool message is logged and skipped, the rest are
appended in order as messages of role tool. -/
def savedToolMessages (saveOk : Nat → Bool) (msgs : List ToolMessage) : List ctx.Message :=
  (msgs.enum.filterMap (fun p =>
    if saveOk p.1 then some (ctx.Message.mk "tool" p.2.content) else none))

/-- Outcome of one iteration of the conversation loop: abort the turn,
finalize with a response, or continue with the extended working
conversation and accumulated tool-call results. -/
inductive StepOut where
  | abort (e : TurnError) : StepOut
  | final (response : String) (finishReason : String) (toolCalls : List ToolCallResult) : StepOut
  | next (conversation : List ctx.Message) (allToolCalls : List ToolCallResult) : StepOut

/-- One iteration of ChatService.processWithToolCalls: build context, call
the provider, and either finalize (no tool calls), or execute the
requested calls, persist the assistant message, append the tool-result
messages and continue. -/
def turnStep (env : TurnEnv) (iteration : Nat) (conversation : List ctx.Message)
    (allToolCalls : List ToolCallResult) : StepOut :=
  match env.strategy with
  | none => .abort .unknownStrategy
  | some strat =>
    match strat conversation with
    | .error _ => .abort .buildContextFailed
    | .ok _contextMessages =>
      match env.provider iteration with
      | .noProvider => .abort .providerNotFound
      | .unavailable => .abort .providerUnavailable
      | .chatErr => .abort .chatFailed
      | .ok resp toolCalls =>
        if toolCalls.isEmpty then
          if env.saveAssistant iteration then
            .final resp.content (getFinishReason resp false) allToolCalls
          else .abort .saveFailed
        else
          let results := ExecuteToolCalls env.toolService toolCalls
          if env.saveAssistant iteration then
            let withAssistant := conversation ++ [ctx.Message.mk "assistant" resp.content]
            let toolMsgs := CreateToolResultMessages results
            .next (withAssistant ++ savedToolMessages (env.saveToolMessage iteration) toolMsgs)
              (allToolCalls ++ results)
          else .abort .saveFailed

/-- The fixed iteration bound of processWithToolCalls. -/
def maxIterations : Nat := 5

/-- The loop of processWithToolCalls, by remaining fuel; exhausting the
fuel yields the exceeded-maximum-tool-call-iterations error. -/
def runTurn (env : TurnEnv) : Nat → Nat → List ctx.Message → List ToolCallResult →
    Except TurnError (String × String × List ToolCallResult)
  | _, 0, _, _ => .error .maxIterationsExceeded
  | iteration, fuel + 1, conversation, allToolCalls =>
    match turnStep env iteration conversation allToolCalls with
    | .abort e => .error e
    | .final response finishReason toolCallResults => .ok (response, finishReason, toolCallResults)
    | .next conversation' allToolCalls' => runTurn env (iteration + 1) fuel conversation' allToolCalls'

/-- ChatService.processWithToolCalls: run the loop for at most
maxIterations iterations starting from the persisted history.  A failure
to fetch the history aborts before the loop starts and is not modelled. -/
def processWithToolCalls (env : TurnEnv) (history : List ctx.Message) :
    Except TurnError (String × String × List ToolCallResult) :=
  runTurn env 0 maxIterations history []

/-- Observer counting how many loop iterations actually execute, defined by
the same recursion as runTurn. -/
def iterationsFrom (env : TurnEnv) : Nat → Nat → List ctx.Message → List ToolCallResult → Nat
  | _, 0, _, _ => 0
  | iteration, fuel + 1, conversation, allToolCalls =>
    match turnStep env iteration conversation allToolCalls with
    | .next conversation' allToolCalls' =>
      1 + iterationsFrom env (iteration + 1) fuel conversation' allToolCalls'
    | _ => 1

/-- Number of iterations a whole turn executes. -/
def iterationsUsed (env : TurnEnv) (history : List ctx.Message) : Nat :=
  iterationsFrom env 0 maxIterations history []

end services

/-! ### Lemmas about the validator -/

namespace tools

/-- Whether a string satisfies an optional compiled pattern. -/
def patternOk (pat : Option (String → Bool)) (s : String) : Bool :=
  match pat with
  | some matcher => matcher s
  | none => true

/-- Whether a string satisfies an enum constraint (vacuous when no enum is
declared). -/
def enumOk (enum : List String) (s : String) : Bool :=
  enum.isEmpty || enum.contains s

/-- Whether a number lies within the declared optional bounds. -/
def rangeOk (lo hi : Option ℚ) (q : ℚ) : Bool :=
  (match lo with | some l => decide (l ≤ q) | none => true) &&
    (match hi with | some h => decide (q ≤ h) | none => true)

/-- Spec-side conformance of a value to a parameter declaration: the value
has the declared runtime type and satisfies the declared enum, pattern and
range constraints.  This renders the phrase a value of the declared type
satisfying its constraints, written independently of the validator. -/
def conforms (p : Parameter) (v : Value) : Bool :=
  match v with
  | .vStr s => decide (p.type = "string") && enumOk p.enum s && patternOk p.pattern s
  | .vNum q => decide (p.type = "number") && rangeOk p.minimum p.maximum q
  | .vBool _ => decide (p.type = "boolean")
  | .vObj _ => decide (p.type = "object")
  | .vArr _ => decide (p.type = "array")
  | .vNull => false

theorem validateStringParameter_of_ok (p : Parameter) (s : String)
    (henum : enumOk p.enum s = true) (hpat : patternOk p.pattern s = true) :
    validateStringParameter p (.vStr s) = none := by
  have hcond : ¬ (0 < p.enum.length ∧ s ∉ p.enum) := by
    rintro ⟨hlen, hmem⟩
    rcases Bool.or_eq_true_iff.mp henum with h | h
    · rw [List.isEmpty_iff.mp h] at hlen
      exact Nat.lt_irrefl 0 hlen
    · exact hmem (List.mem_of_elem_eq_true h)
  simp only [validateStringParameter]
  rw [if_neg hcond]
  unfold patternOk at hpat
  match hp : p.pattern with
  | some matcher =>
    rw [hp] at hpat
    have hm : matcher s = true := hpat
    simp [hm]
  | none => rfl

theorem validateNumberParameter_of_ok (p : Parameter) (q : ℚ)
    (h : rangeOk p.minimum p.maximum q = true) :
    validateNumberParameter p (.vNum q) = none := by
  unfold rangeOk at h
  rw [Bool.and_eq_true] at h
  unfold validateNumberParameter
  match hmin : p.minimum with
  | some lo =>
    rw [hmin] at h
    have hlo : ¬ q < lo := not_lt.mpr (of_decide_eq_true h.1)
    match hmax : p.maximum with
    | some hi =>
      rw [hmax] at h
      have hhi : ¬ q > hi := not_lt.mpr (of_decide_eq_true h.2)
      simp [hlo, hhi]
    | none => simp [hlo]
  | none =>
    match hmax : p.maximum with
    | some hi =>
      rw [hmax] at h
      have hhi : ¬ q > hi := not_lt.mpr (of_decide_eq_true h.2)
      simp [hhi]
    | none => simp

theorem validateParameter_of_conforms (p : Parameter) (v : Value)
    (h : conforms p v = true) : validateParameter p v = none := by
  match v with
  | .vNull => simp [conforms] at h
  | .vStr s =>
    simp only [conforms, Bool.and_eq_true, decide_eq_true_eq] at h
    obtain ⟨⟨hty, henum⟩, hpat⟩ := h
    simp only [validateParameter, hty, if_pos rfl]
    exact validateStringParameter_of_ok p s henum hpat
  | .vNum q =>
    simp only [conforms, Bool.and_eq_true, decide_eq_true_eq] at h
    obtain ⟨hty, hrange⟩ := h
    have hne : ¬ p.type = "string" := by rw [hty]; decide
    simp only [validateParameter, hty, if_neg, if_pos rfl]
    exact validateNumberParameter_of_ok p q hrange
  | .vBool b =>
    simp only [conforms, decide_eq_true_eq] at h
    simp [validateParameter, validateBooleanParameter, h]
  | .vObj fs =>
    simp only [conforms, decide_eq_true_eq] at h
    simp [validateParameter, validateObjectParameter, h]
  | .vArr es =>
    simp only [conforms, decide_eq_true_eq] at h
    simp [validateParameter, validateArrayParameter, h]

theorem requiredCheck_isSome_of_missing (params : List Parameter) (input : Input)
    (p : Parameter) (hp : p ∈ params) (hreq : p.required = true)
    (hmiss : mapGet input p.name = none) : (requiredCheck params input).isSome = true := by
  induction params with
  | nil => cases hp
  | cons q qs ih =>
    rcases List.mem_cons.mp hp with rfl | hmem
    · simp [requiredCheck, hreq, hmiss]
    · by_cases hc : (q.required && (mapGet input q.name).isNone) = true
      · simp [requiredCheck, hc]
      · simpa [requiredCheck, hc] using ih hmem

theorem requiredCheck_none (params : List Parameter) (input : Input)
    (h : ∀ p ∈ params, p.required = true → (mapGet input p.name).isSome = true) :
    requiredCheck params input = none := by
  induction params with
  | nil => rfl
  | cons q qs ih =>
    have hq : (q.required && (mapGet input q.name).isNone) = false := by
      by_cases hr : q.required = true
      · have := h q (List.mem_cons_self q qs) hr
        simp [hr, Option.isNone_iff_eq_none]
        exact Option.isSome_iff_exists.mp this |>.elim (fun v hv => by simp [hv])
      · simp [Bool.eq_false_iff.mpr hr]
    have ih' := ih (fun p hp hr => h p (List.mem_cons_of_mem q hp) hr)
    simp [requiredCheck, hq, ih']

theorem checkEntries_none (params : List Parameter) (entries : Input)
    (h : ∀ kv ∈ entries, ∃ p, findParameter params kv.1 = some p ∧
      validateParameter p kv.2 = none) :
    checkEntries params entries = none := by
  induction entries with
  | nil => rfl
  | cons kv rest ih =>
    obtain ⟨p, hfind, hval⟩ := h kv (List.mem_cons_self kv rest)
    have ih' := ih (fun kv' hkv' => h kv' (List.mem_cons_of_mem kv hkv'))
    cases kv with
    | mk k v => simpa [checkEntries, hfind, hval] using ih'

theorem findParameter_eq_of_nodup (params : List Parameter) (p : Parameter)
    (hnod : (params.map Parameter.name).Nodup) (hp : p ∈ params) :
    findParameter params p.name = some p := by
  induction params with
  | nil => cases hp
  | cons q qs ih =>
    rcases List.mem_cons.mp hp with rfl | hmem
    · simp [findParameter]
    · have hnod2 : (q.name :: qs.map Parameter.name).Nodup := by
        simpa only [List.map_cons] using hnod
      have hqs : q.name ∉ qs.map Parameter.name := (List.nodup_cons.mp hnod2).1
      have hne : ¬ q.name = p.name := by
        intro he
        exact hqs (he ▸ List.mem_map_of_mem Parameter.name hmem)
      have hnod' : (qs.map Parameter.name).Nodup := (List.nodup_cons.mp hnod2).2
      simp [findParameter, hne, ih hnod' hmem]

theorem findParameter_isSome_of_mem (params : List Parameter) (p : Parameter)
    (hp : p ∈ params) : (findParameter params p.name).isSome = true := by
  induction params with
  | nil => cases hp
  | cons q qs ih =>
    by_cases hq : q.name = p.name
    · simp [findParameter, hq]
    · rcases List.mem_cons.mp hp with rfl | hmem
      · exact absurd rfl hq
      · simp [findParameter, hq, ih hmem]

theorem mapGet_filter (input : Input) (k : String) (pred : String → Bool)
    (h : pred k = true) :
    mapGet (input.filter (fun kv => pred kv.1)) k = mapGet input k := by
  induction input with
  | nil => rfl
  | cons kv rest ih =>
    cases kv with
    | mk k' v =>
      by_cases hk : k' = k
      · subst hk
        simp [mapGet, List.filter_cons, h]
      · by_cases hpred : pred k' = true
        · simp [mapGet, List.filter_cons, hpred, hk, ih]
        · simp only [List.filter_cons]
          rw [if_neg (by simp [hpred])]
          simp [mapGet, hk, ih]

theorem sanitizeParams_congr (params : List Parameter) (input input' : Input)
    (h : ∀ p ∈ params, mapGet input p.name = mapGet input' p.name) :
    sanitizeParams params input = sanitizeParams params input' := by
  induction params with
  | nil => rfl
  | cons q qs ih =>
    have hq := h q (List.mem_cons_self q qs)
    have ih' := ih (fun p hp => h p (List.mem_cons_of_mem q hp))
    simp [sanitizeParams, hq, ih']

theorem sanitizeParams_keys (params : List Parameter) (input : Input) (m : Input)
    (hok : sanitizeParams params input = .ok m) :
    ∀ kv ∈ m, ∃ p ∈ params, p.name = kv.1 := by
  induction params generalizing m with
  | nil =>
    simp only [sanitizeParams] at hok
    cases hok
    intro kv hkv
    cases hkv
  | cons q qs ih =>
    intro kv hkv
    simp only [sanitizeParams] at hok
    match hget : mapGet input q.name with
    | none =>
      simp only [hget] at hok
      match hdef : q.default with
      | some d =>
        simp only [hdef] at hok
        match hrest : sanitizeParams qs input with
        | .ok rest =>
          simp only [hrest] at hok
          cases hok
          rcases List.mem_cons.mp hkv with rfl | hmem
          · exact ⟨q, List.mem_cons_self q qs, rfl⟩
          · obtain ⟨p, hp, hn⟩ := ih rest hrest kv hmem
            exact ⟨p, List.mem_cons_of_mem q hp, hn⟩
        | .error e => simp only [hrest] at hok; cases hok
      | none =>
        simp only [hdef] at hok
        obtain ⟨p, hp, hn⟩ := ih m hok kv hkv
        exact ⟨p, List.mem_cons_of_mem q hp, hn⟩
    | some v =>
      simp only [hget] at hok
      match hconv : convertValue q.type v with
      | .error msg => simp only [hconv] at hok; cases hok
      | .ok c =>
        simp only [hconv] at hok
        match hrest : sanitizeParams qs input with
        | .ok rest =>
          simp only [hrest] at hok
          cases hok
          rcases List.mem_cons.mp hkv with rfl | hmem
          · exact ⟨q, List.mem_cons_self q qs, rfl⟩
          · obtain ⟨p, hp, hn⟩ := ih rest hrest kv hmem
            exact ⟨p, List.mem_cons_of_mem q hp, hn⟩
        | .error e => simp only [hrest] at hok; cases hok

theorem mapGet_eq_none_of_not_key (m : Input) (k : String)
    (h : ∀ kv ∈ m, kv.1 ≠ k) : mapGet m k = none := by
  induction m with
  | nil => rfl
  | cons kv rest ih =>
    have h1 := h kv (List.mem_cons_self kv rest)
    cases kv with
    | mk k' v =>
      simp only [ne_eq] at h1
      simp [mapGet, h1, ih (fun kv' hkv' => h kv' (List.mem_cons_of_mem _ hkv'))]

theorem sanitizeParams_absent_default (params : List Parameter) (input : Input)
    (p : Parameter) (d : Value)
    (hnod : (params.map Parameter.name).Nodup) (hp : p ∈ params)
    (hmiss : mapGet input p.name = none) (hdef : p.default = some d)
    (m : Input) (hok : sanitizeParams params input = .ok m) :
    mapGet m p.name = some d := by
  induction params generalizing m with
  | nil => cases hp
  | cons q qs ih =>
    have hnod2 : (q.name :: qs.map Parameter.name).Nodup := by
      simpa only [List.map_cons] using hnod
    have hnodq : q.name ∉ qs.map Parameter.name := (List.nodup_cons.mp hnod2).1
    have hnod' : (qs.map Parameter.name).Nodup := (List.nodup_cons.mp hnod2).2
    simp only [sanitizeParams] at hok
    rcases List.mem_cons.mp hp with rfl | hmem
    · simp only [hmiss, hdef] at hok
      match hrest : sanitizeParams qs input with
      | .ok rest =>
        simp only [hrest] at hok
        cases hok
        simp [mapGet]
      | .error e => simp only [hrest] at hok; cases hok
    · have hne : q.name ≠ p.name := by
        intro he
        exact hnodq (he ▸ List.mem_map_of_mem Parameter.name hmem)
      match hget : mapGet input q.name with
      | none =>
        simp only [hget] at hok
        match hqdef : q.default with
        | some d' =>
          simp only [hqdef] at hok
          match hrest : sanitizeParams qs input with
          | .ok rest =>
            simp only [hrest] at hok
            cases hok
            simp [mapGet, hne, ih hnod' hmem rest hrest]
          | .error e => simp only [hrest] at hok; cases hok
        | none =>
          simp only [hqdef] at hok
          exact ih hnod' hmem m hok
      | some v =>
        simp only [hget] at hok
        match hconv : convertValue q.type v with
        | .error msg => simp only [hconv] at hok; cases hok
        | .ok c =>
          simp only [hconv] at hok
          match hrest : sanitizeParams qs input with
          | .ok rest =>
            simp only [hrest] at hok
            cases hok
            simp [mapGet, hne, ih hnod' hmem rest hrest]
          | .error e => simp only [hrest] at hok; cases hok

theorem sanitizeParams_absent_no_default (params : List Parameter) (input : Input)
    (p : Parameter)
    (hnod : (params.map Parameter.name).Nodup) (hp : p ∈ params)
    (hmiss : mapGet input p.name = none) (hdef : p.default = none)
    (m : Input) (hok : sanitizeParams params input = .ok m) :
    mapGet m p.name = none := by
  induction params generalizing m with
  | nil => cases hp
  | cons q qs ih =>
    have hnod2 : (q.name :: qs.map Parameter.name).Nodup := by
      simpa only [List.map_cons] using hnod
    have hnodq : q.name ∉ qs.map Parameter.name := (List.nodup_cons.mp hnod2).1
    have hnod' : (qs.map Parameter.name).Nodup := (List.nodup_cons.mp hnod2).2
    simp only [sanitizeParams] at hok
    rcases List.mem_cons.mp hp with rfl | hmem
    · simp only [hmiss, hdef] at hok
      refine mapGet_eq_none_of_not_key m p.name (fun kv hkv he => ?_)
      obtain ⟨r, hr, hrn⟩ := sanitizeParams_keys qs input m hok kv hkv
      exact hnodq (by rw [← he, ← hrn] at hnodq ⊢; exact List.mem_map_of_mem Parameter.name hr)
    · have hne : q.name ≠ p.name := by
        intro he
        exact hnodq (he ▸ List.mem_map_of_mem Parameter.name hmem)
      match hget : mapGet input q.name with
      | none =>
        simp only [hget] at hok
        match hqdef : q.default with
        | some d' =>
          simp only [hqdef] at hok
          match hrest : sanitizeParams qs input with
          | .ok rest =>
            simp only [hrest] at hok
            cases hok
            simp [mapGet, hne, ih hnod' hmem rest hrest]
          | .error e => simp only [hrest] at hok; cases hok
        | none =>
          simp only [hqdef] at hok
          exact ih hnod' hmem m hok
      | some v =>
        simp only [hget] at hok
        match hconv : convertValue q.type v with
        | .error msg => simp only [hconv] at hok; cases hok
        | .ok c =>
          simp only [hconv] at hok
          match hrest : sanitizeParams qs input with
          | .ok rest =>
            simp only [hrest] at hok
            cases hok
            simp [mapGet, hne, ih hnod' hmem rest hrest]
          | .error e => simp only [hrest] at hok; cases hok

end tools

/-! ### Claims C9 and C10: validation and sanitization -/

/-- Required string parameter of the C9 example schema. -/
def pReqC9 : tools.Parameter := { name := "p", type := "string", required := true }

/-- Optional number parameter of the C9 example schema. -/
def pOptC9 : tools.Parameter := { name := "q", type := "number", required := false }

/-- Example schema for the C9 counterexample and witness. -/
def schemaC9 : tools.Schema := { name := "t", description := "", parameters := [pReqC9, pOptC9] }

/-- Example input for the C9 counterexample: the required parameter is
present and conforming and there is no unknown key, yet the optional
parameter carries a non-numeric string, so validation fails. -/
def inputC9 : Input := [("p", .vStr "x"), ("q", .vStr "abc")]

/-- C9, counterexample: the acceptance half of the claim is false as
stated.  For the concrete schema with required string parameter p and
optional number parameter q, the input supplies every required parameter
with a value of its declared type satisfying its constraints and contains
no keys outside the schema parameter names, and still ValidateInput
reports an error, because the optional parameter q is supplied with the
non-numeric string abc. -/
theorem C9_counterexample :
    (schemaC9.parameters.all (fun p =>
      !p.required || ((mapGet inputC9 p.name).map (tools.conforms p)).getD false)) = true
    ∧ (inputC9.all (fun kv => (tools.findParameter schemaC9.parameters kv.1).isSome)) = true
    ∧ (tools.ValidateInput schemaC9 inputC9).isSome = true :=
  ⟨rfl, rfl, rfl⟩

/-- C9 (amended): for every schema with distinct parameter names, validate
rejects any input missing a required parameter regardless of the other
supplied values, and accepts any input that supplies every required
parameter and in which every supplied entry names a schema parameter and
carries a value of that parameter's declared type satisfying its
constraints. -/
theorem C9_validate_rejects_missing_accepts_conforming
    (schema : tools.Schema) (input : Input)
    (hnames : (schema.parameters.map tools.Parameter.name).Nodup) :
    (∀ p ∈ schema.parameters, p.required = true → mapGet input p.name = none →
      (tools.ValidateInput schema input).isSome = true)
    ∧ ((∀ p ∈ schema.parameters, p.required = true → (mapGet input p.name).isSome = true) →
      (∀ kv ∈ input, ∃ p ∈ schema.parameters, p.name = kv.1 ∧ tools.conforms p kv.2 = true) →
      tools.ValidateInput schema input = none) := by
  constructor
  · intro p hp hreq hmiss
    have h := tools.requiredCheck_isSome_of_missing schema.parameters input p hp hreq hmiss
    obtain ⟨e, he⟩ := Option.isSome_iff_exists.mp h
    simp [tools.ValidateInput, he]
  · intro hreq hconf
    have h1 : tools.requiredCheck schema.parameters input = none :=
      tools.requiredCheck_none schema.parameters input hreq
    have h2 : tools.checkEntries schema.parameters input = none := by
      refine tools.checkEntries_none schema.parameters input (fun kv hkv => ?_)
      obtain ⟨p, hp, hn, hc⟩ := hconf kv hkv
      refine ⟨p, ?_, tools.validateParameter_of_conforms p kv.2 hc⟩
      rw [← hn]
      exact tools.findParameter_eq_of_nodup schema.parameters p hnames hp
    simp [tools.ValidateInput, h1, h2]

/-- C9, witness: the amended theorem applied to the example schema, with an
input that omits the required parameter (rejected) and an input that
supplies it with a conforming string (accepted). -/
theorem C9_witness :
    (tools.ValidateInput schemaC9 []).isSome = true
    ∧ tools.ValidateInput schemaC9 [("p", .vStr "x")] = none := by
  constructor
  · exact (C9_validate_rejects_missing_accepts_conforming schemaC9 [] (by decide)).1
      pReqC9 (List.mem_cons_self pReqC9 [pOptC9]) rfl rfl
  · refine (C9_validate_rejects_missing_accepts_conforming schemaC9 [("p", .vStr "x")]
      (by decide)).2 ?_ ?_
    · intro p hp hr
      rcases List.mem_cons.mp hp with rfl | hp2
      · rfl
      · rcases List.mem_cons.mp hp2 with rfl | h2
        · exact absurd hr (by decide)
        · cases h2
    · intro kv hkv
      rcases List.mem_cons.mp hkv with rfl | h2
      · exact ⟨pReqC9, List.mem_cons_self pReqC9 [pOptC9], rfl, rfl⟩
      · cases h2

/-- Example schema for the C10 witness: a required string, an optional
number carrying a default, and an optional string without default. -/
def schemaC10 : tools.Schema :=
  { name := "t", description := ""
    parameters :=
      [ { name := "a", type := "string", required := true }
      , { name := "b", type := "number", required := false, default := some (.vNum 7) }
      , { name := "c", type := "string", required := false } ] }

/-- Example input for the C10 witness: the required parameter plus one key
that is not declared in the schema. -/
def inputC10 : Input := [("a", .vStr "hi"), ("zz", .vBool true)]

/-- C10: for every schema with distinct parameter names and every input
map, a successfully sanitized map binds only declared parameter names;
undeclared input keys are silently dropped, in the sense that sanitize
computes the same outcome on the input restricted to declared keys; every
absent optional parameter that declares a default appears bound to that
default; and absent parameters without a default are omitted. -/
theorem C10_sanitize_declared_keys_and_defaults
    (schema : tools.Schema) (input : Input)
    (hnames : (schema.parameters.map tools.Parameter.name).Nodup) :
    (∀ m, tools.SanitizeInput schema input = .ok m →
      ∀ kv ∈ m, ∃ p ∈ schema.parameters, p.name = kv.1)
    ∧ tools.SanitizeInput schema input =
        tools.SanitizeInput schema
          (input.filter (fun kv => (tools.findParameter schema.parameters kv.1).isSome))
    ∧ (∀ p ∈ schema.parameters, ∀ d : Value, p.required = false →
        mapGet input p.name = none → p.default = some d →
        ∀ m, tools.SanitizeInput schema input = .ok m → mapGet m p.name = some d)
    ∧ (∀ p ∈ schema.parameters, mapGet input p.name = none → p.default = none →
        ∀ m, tools.SanitizeInput schema input = .ok m → mapGet m p.name = none) := by
  refine ⟨?_, ?_, ?_, ?_⟩
  · intro m hok kv hkv
    exact tools.sanitizeParams_keys schema.parameters input m hok kv hkv
  · refine tools.sanitizeParams_congr schema.parameters input _ (fun p hp => ?_)
    exact (tools.mapGet_filter input p.name
      (fun k => (tools.findParameter schema.parameters k).isSome)
      (tools.findParameter_isSome_of_mem schema.parameters p hp)).symm
  · intro p hp d _hopt hmiss hdef m hok
    exact tools.sanitizeParams_absent_default schema.parameters input p d hnames hp hmiss hdef m hok
  · intro p hp hmiss hdef m hok
    exact tools.sanitizeParams_absent_no_default schema.parameters input p hnames hp hmiss hdef m hok

/-- C10, witness: on the example schema and input, the theorem yields that
the defaulted absent parameter b is bound to its default and the absent
defaultless parameter c is omitted; the sanitized map itself is computed
to check the undeclared key zz was dropped without an error. -/
theorem C10_witness :
    tools.SanitizeInput schemaC10 inputC10 = .ok [("a", .vStr "hi"), ("b", .vNum 7)]
    ∧ mapGet [("a", Value.vStr "hi"), ("b", Value.vNum 7)] "b" = some (.vNum 7)
    ∧ mapGet [("a", Value.vStr "hi"), ("b", Value.vNum 7)] "c" = none := by
  have h := C10_sanitize_declared_keys_and_defaults schemaC10 inputC10 (by decide)
  refine ⟨rfl, ?_, ?_⟩
  · exact h.2.2.1 { name := "b", type := "number", required := false, default := some (.vNum 7) }
      (List.mem_cons_of_mem _ (List.mem_cons_self _ _)) (.vNum 7) rfl rfl rfl _ rfl
  · exact h.2.2.2 { name := "c", type := "string", required := false }
      (List.mem_cons_of_mem _ (List.mem_cons_of_mem _ (List.mem_cons_self _ _))) rfl rfl _ rfl

/-! ### Claims C2 and C3: panic containment, nil results and timeouts -/

/-- C2: along the executor path that reaches the tool body (tool
registered, available, input valid, sanitize succeeds, context neither
cancelled nor past its deadline), a body that panics yields a failure
result with error code PANIC carrying the panic value in the metadata, and
a body that returns no result object yields a failure result with error
code NIL_RESULT.  Execute is a total function into results, so neither
outcome escapes it. -/
theorem C2_execute_contains_panic_and_nil
    (registry : List (String × tools.BaseTool)) (toolName : String) (input : Input)
    (bt : tools.BaseTool) (env : tools.ExecEnv) (sanitized : Input)
    (hreg : tools.registryGet registry toolName = some bt)
    (havail : bt.available = true)
    (hval : tools.ValidateInput bt.schema input = none)
    (hsan : tools.SanitizeInput bt.schema input = .ok sanitized)
    (hcanc : env.cancelled = false)
    (htime : env.timedOut = false) :
    (∀ pv : Value, bt.executeFunc sanitized = .panics pv →
      tools.Executor.Execute registry env toolName input =
        { success := false, error := "tool execution panicked", errorCode := "PANIC"
          metadata := [("panic", pv)] })
    ∧ (bt.executeFunc sanitized = .returns none →
      tools.Executor.Execute registry env toolName input =
        { success := false, error := "tool returned nil result", errorCode := "NIL_RESULT" }) := by
  constructor
  · intro pv hbody
    simp [tools.Executor.Execute, hreg, havail, hval, tools.BaseTool.Execute, hsan, hcanc,
      htime, hbody]
  · intro hbody
    simp [tools.Executor.Execute, hreg, havail, hval, tools.BaseTool.Execute, hsan, hcanc,
      htime, hbody]

/-- C3: along the executor path that reaches the race (tool registered,
available, input valid, sanitize succeeds, not cancelled), if the deadline
elapses before the body delivers its outcome then Execute returns a
failure result with error code TIMEOUT, and the returned result does not
depend on the tool body at all: any two bodies give the same result under
an elapsed deadline, so Execute does not wait for the body to finish. -/
theorem C3_execute_timeout_and_body_independence
    (registry : List (String × tools.BaseTool)) (toolName : String) (input : Input)
    (bt : tools.BaseTool) (env : tools.ExecEnv) (sanitized : Input)
    (hreg : tools.registryGet registry toolName = some bt)
    (havail : bt.available = true)
    (hval : tools.ValidateInput bt.schema input = none)
    (hsan : tools.SanitizeInput bt.schema input = .ok sanitized)
    (hcanc : env.cancelled = false)
    (htime : env.timedOut = true) :
    tools.Executor.Execute registry env toolName input =
      { success := false, error := "execution timeout", errorCode := "TIMEOUT" }
    ∧ ∀ f g : Input → tools.BodyOutcome,
        tools.BaseTool.Execute { bt with executeFunc := f } env input =
          tools.BaseTool.Execute { bt with executeFunc := g } env input := by
  constructor
  · simp [tools.Executor.Execute, hreg, havail, hval, tools.BaseTool.Execute, hsan, hcanc, htime]
  · intro f g
    simp only [tools.BaseTool.Execute]
    match hs : tools.SanitizeInput bt.schema input with
    | .error e => rfl
    | .ok s => simp [hcanc, htime]

/-- A tool whose body always panics, for the C2 witness. -/
def panicToolC2 : tools.BaseTool :=
  { name := "boom", schema := { name := "boom", description := "", parameters := [] }
    executeFunc := fun _ => .panics (.vStr "kaboom") }

/-- A tool whose body returns a nil result pointer, for the C2 witness. -/
def nilToolC2 : tools.BaseTool :=
  { name := "nothing", schema := { name := "nothing", description := "", parameters := [] }
    executeFunc := fun _ => .returns none }

/-- C2, witness: with a registry holding a panicking tool and a
nil-returning tool, executing each on an empty input yields the PANIC and
NIL_RESULT failure results respectively. -/
theorem C2_witness :
    tools.Executor.Execute [("boom", panicToolC2), ("nothing", nilToolC2)] {} "boom" [] =
      { success := false, error := "tool execution panicked", errorCode := "PANIC"
        metadata := [("panic", .vStr "kaboom")] }
    ∧ tools.Executor.Execute [("boom", panicToolC2), ("nothing", nilToolC2)] {} "nothing" [] =
      { success := false, error := "tool returned nil result", errorCode := "NIL_RESULT" } := by
  constructor
  · exact (C2_execute_contains_panic_and_nil [("boom", panicToolC2), ("nothing", nilToolC2)]
      "boom" [] panicToolC2 {} [] rfl rfl rfl rfl rfl rfl).1 (.vStr "kaboom") rfl
  · exact (C2_execute_contains_panic_and_nil [("boom", panicToolC2), ("nothing", nilToolC2)]
      "nothing" [] nilToolC2 {} [] rfl rfl rfl rfl rfl rfl).2 rfl

/-- A tool whose body would produce a successful result, used to witness
that an elapsed deadline wins the race regardless, for the C3 witness. -/
def slowToolC3 : tools.BaseTool :=
  { name := "slow", schema := { name := "slow", description := "", parameters := [] }
    executeFunc := fun _ => .returns (some { success := true, data := some (.vStr "late") }) }

/-- C3, witness: executing the slow tool in an environment whose deadline
has elapsed yields the TIMEOUT failure result, and swapping in a body that
would instead panic changes nothing. -/
theorem C3_witness :
    tools.Executor.Execute [("slow", slowToolC3)] { timedOut := true } "slow" [] =
      { success := false, error := "execution timeout", errorCode := "TIMEOUT" }
    ∧ tools.BaseTool.Execute
        { slowToolC3 with executeFunc := fun _ => .returns (some { success := true }) }
        { timedOut := true } [] =
      tools.BaseTool.Execute
        { slowToolC3 with executeFunc := fun _ => .panics .vNull }
        { timedOut := true } [] := by
  have h := C3_execute_timeout_and_body_independence [("slow", slowToolC3)] "slow" []
    slowToolC3 { timedOut := true } [] rfl rfl rfl rfl rfl rfl
  exact ⟨h.1, h.2 (fun _ => .returns (some { success := true })) (fun _ => .panics .vNull)⟩

/-! ### Claim C1: batched execution -/

namespace tools

theorem resultsGet_mapInsert_self (m : List (String × Result)) (k : String) (v : Result) :
    resultsGet (mapInsert m k v) k = some v := by
  induction m with
  | nil => simp [mapInsert, resultsGet]
  | cons kv rest ih =>
    cases kv with
    | mk k' v' =>
      by_cases hk : k' = k
      · simp [mapInsert, hk, resultsGet]
      · simp [mapInsert, hk, resultsGet, ih]

theorem resultsGet_mapInsert_other (m : List (String × Result)) (k k' : String) (v : Result)
    (hne : k' ≠ k) : resultsGet (mapInsert m k v) k' = resultsGet m k' := by
  have hkk : ¬ k = k' := fun h => hne h.symm
  induction m with
  | nil => simp [mapInsert, resultsGet, hkk]
  | cons kv rest ih =>
    cases kv with
    | mk k0 v0 =>
      by_cases hk : k0 = k
      · subst hk
        simp [mapInsert, resultsGet, hkk]
      · simp [mapInsert, hk, resultsGet, ih]

theorem mapInsert_length_of_none (m : List (String × Result)) (k : String) (v : Result)
    (h : resultsGet m k = none) : (mapInsert m k v).length = m.length + 1 := by
  induction m with
  | nil => rfl
  | cons kv rest ih =>
    cases kv with
    | mk k' v' =>
      by_cases hk : k' = k
      · simp [resultsGet, hk] at h
      · simp only [resultsGet, if_neg hk] at h
        simp [mapInsert, hk, ih h]

/-- The fan-in loop of ExecuteMultiple on an already-built list of keyed
results, factored out for reasoning. -/
def foldInsert (m : List (String × Result)) (ps : List (String × Result)) :
    List (String × Result) :=
  ps.foldl (fun acc kv => mapInsert acc kv.1 kv.2) m

theorem foldInsert_lookup_of_not_key (m : List (String × Result))
    (ps : List (String × Result)) (k : String) (h : k ∉ ps.map Prod.fst) :
    resultsGet (foldInsert m ps) k = resultsGet m k := by
  induction ps generalizing m with
  | nil => rfl
  | cons kv rest ih =>
    have hk : k ≠ kv.1 := by
      intro he
      exact h (by simp [he])
    have hrest : k ∉ rest.map Prod.fst := by
      intro hmem
      exact h (by simp [hmem])
    calc resultsGet (foldInsert (mapInsert m kv.1 kv.2) rest) k
        = resultsGet (mapInsert m kv.1 kv.2) k := ih _ hrest
      _ = resultsGet m k := resultsGet_mapInsert_other m kv.1 k kv.2 hk

theorem foldInsert_length (m : List (String × Result)) (ps : List (String × Result))
    (hnod : (ps.map Prod.fst).Nodup)
    (hdis : ∀ kv ∈ ps, resultsGet m kv.1 = none) :
    (foldInsert m ps).length = m.length + ps.length := by
  induction ps generalizing m with
  | nil => rfl
  | cons kv rest ih =>
    have hnod2 : (kv.1 :: rest.map Prod.fst).Nodup := by simpa using hnod
    have hhead : kv.1 ∉ rest.map Prod.fst := (List.nodup_cons.mp hnod2).1
    have hnod' : (rest.map Prod.fst).Nodup := (List.nodup_cons.mp hnod2).2
    have hm : resultsGet m kv.1 = none := hdis kv (List.mem_cons_self kv rest)
    have hdis' : ∀ kv' ∈ rest, resultsGet (mapInsert m kv.1 kv.2) kv'.1 = none := by
      intro kv' hkv'
      have hne : kv'.1 ≠ kv.1 := by
        intro he
        exact hhead (he ▸ List.mem_map_of_mem Prod.fst hkv')
      rw [resultsGet_mapInsert_other m kv.1 kv'.1 kv.2 hne]
      exact hdis kv' (List.mem_cons_of_mem kv hkv')
    calc (foldInsert (mapInsert m kv.1 kv.2) rest).length
        = (mapInsert m kv.1 kv.2).length + rest.length := ih _ hnod' hdis'
      _ = m.length + 1 + rest.length := by rw [mapInsert_length_of_none m kv.1 kv.2 hm]
      _ = m.length + (rest.length + 1) := by omega
      _ = m.length + (kv :: rest).length := by simp

theorem foldInsert_lookup_of_mem (m : List (String × Result))
    (ps : List (String × Result)) (k : String) (v : Result)
    (hnod : (ps.map Prod.fst).Nodup) (hmem : (k, v) ∈ ps) :
    resultsGet (foldInsert m ps) k = some v := by
  induction ps generalizing m with
  | nil => cases hmem
  | cons kv rest ih =>
    have hnod2 : (kv.1 :: rest.map Prod.fst).Nodup := by simpa using hnod
    have hhead : kv.1 ∉ rest.map Prod.fst := (List.nodup_cons.mp hnod2).1
    have hnod' : (rest.map Prod.fst).Nodup := (List.nodup_cons.mp hnod2).2
    rcases List.mem_cons.mp hmem with rfl | hrest
    · have : k ∉ rest.map Prod.fst := hhead
      calc resultsGet (foldInsert (mapInsert m k v) rest) k
          = resultsGet (mapInsert m k v) k := foldInsert_lookup_of_not_key _ rest k this
        _ = some v := resultsGet_mapInsert_self m k v
    · exact ih _ hnod' hrest

/-- The result pair one batched call contributes. -/
def callPair (registry : List (String × BaseTool)) (c : BatchCall) : String × Result :=
  (c.info.callID, Executor.Execute registry c.env c.info.toolName c.info.arguments)

theorem executeMultiple_eq_foldInsert (registry : List (String × BaseTool))
    (arrivals : List BatchCall) :
    Executor.ExecuteMultiple registry arrivals =
      foldInsert [] (arrivals.map (callPair registry)) := by
  simp [Executor.ExecuteMultiple, foldInsert, List.foldl_map, callPair]

end tools

/-- Two batched calls sharing the call id tc1, for the C1 counterexample. -/
def dupCallA : tools.BatchCall := { info := { toolName := "a", arguments := [], callID := "tc1" }, env := {} }

/-- Second batched call with the same call id tc1. -/
def dupCallB : tools.BatchCall := { info := { toolName := "b", arguments := [], callID := "tc1" }, env := {} }

/-- C1, counterexample: the claim is false as stated when two submitted
calls share a call id.  Submitting a batch of two CallInfo entries whose
call ids are both tc1 yields a results map with a single entry, not one
result per submitted entry: the second result overwrites the first under
the shared key. -/
theorem C1_counterexample :
    (tools.Executor.ExecuteMultiple [] [dupCallA, dupCallB]).length = 1
    ∧ [dupCallA, dupCallB].length = 2 :=
  ⟨rfl, rfl⟩

/-- C1 (amended): for every batch of n CallInfo entries with pairwise
distinct call ids and every arrival order of the concurrently completing
calls, the returned map contains exactly n results, and the result stored
under each submitted call id is exactly the result of executing that call
alone, so the failure of any one call leaves every other call's result
unchanged. -/
theorem C1_executeMultiple_one_result_per_call
    (registry : List (String × tools.BaseTool))
    (calls arrivals : List tools.BatchCall)
    (hperm : arrivals.Perm calls)
    (hnodup : (calls.map (fun c => c.info.callID)).Nodup) :
    (tools.Executor.ExecuteMultiple registry arrivals).length = calls.length
    ∧ ∀ c ∈ calls,
        tools.resultsGet (tools.Executor.ExecuteMultiple registry arrivals) c.info.callID =
          some (tools.Executor.Execute registry c.env c.info.toolName c.info.arguments) := by
  have hpermIds : (arrivals.map (fun c => c.info.callID)).Perm
      (calls.map (fun c => c.info.callID)) := hperm.map _
  have hnodA : (arrivals.map (fun c => c.info.callID)).Nodup :=
    hpermIds.symm.nodup hnodup
  have hkeys : (arrivals.map (tools.callPair registry)).map Prod.fst =
      arrivals.map (fun c => c.info.callID) := by
    simp [List.map_map, tools.callPair, Function.comp]
  constructor
  · rw [tools.executeMultiple_eq_foldInsert]
    rw [tools.foldInsert_length [] _ (by rw [hkeys]; exact hnodA) (fun kv _ => rfl)]
    simp [hperm.length_eq]
  · intro c hc
    rw [tools.executeMultiple_eq_foldInsert]
    refine tools.foldInsert_lookup_of_mem [] _ _ _ (by rw [hkeys]; exact hnodA) ?_
    have hcA : c ∈ arrivals := hperm.symm.subset hc
    exact List.mem_map_of_mem (tools.callPair registry) hcA

/-- First batched call of the C1 witness. -/
def witCall1 : tools.BatchCall := { info := { toolName := "a", arguments := [], callID := "id1" }, env := {} }

/-- Second batched call of the C1 witness. -/
def witCall2 : tools.BatchCall := { info := { toolName := "b", arguments := [], callID := "id2" }, env := {} }

/-- C1, witness: a two-call batch with distinct ids collected in reversed
arrival order still yields two results and the result under id1 is the
result of executing call one alone (here a TOOL_NOT_FOUND failure on an
empty registry). -/
theorem C1_witness :
    (tools.Executor.ExecuteMultiple [] [witCall2, witCall1]).length = 2
    ∧ tools.resultsGet (tools.Executor.ExecuteMultiple [] [witCall2, witCall1]) "id1" =
        some { success := false, error := "tool not found", errorCode := "TOOL_NOT_FOUND" } := by
  have h := C1_executeMultiple_one_result_per_call [] [witCall1, witCall2] [witCall2, witCall1]
    (List.Perm.swap witCall1 witCall2 []) (by decide)
  exact ⟨h.1, h.2 witCall1 (List.mem_cons_self witCall1 [witCall2])⟩

/-! ### Claims C6, C7, C8: context strategies -/

namespace ctx

theorem createSimpleSummary_ne_empty (order : List String) (messages : List Message)
    (h : messages ≠ []) : createSimpleSummary order messages ≠ "" := by
  have hie : messages.isEmpty = false := by
    cases messages with
    | nil => exact absurd rfl h
    | cons a l => rfl
  intro he
  unfold createSimpleSummary at he
  rw [hie] at he
  simp only [Bool.false_eq_true, if_false] at he
  have hlen := congrArg String.length he
  rw [String.length_append] at hlen
  have hdot : (".").length = 1 := rfl
  have hnil : ("" : String).length = 0 := rfl
  omega

theorem topicFound_mono (messages : List Message) (t : Nat) (topic : String)
    (h : topicFound (messages.take t) topic = true) : topicFound messages topic = true := by
  unfold topicFound at h ⊢
  rw [List.any_eq_true] at h ⊢
  obtain ⟨m, hm, hp⟩ := h
  exact ⟨m, List.mem_of_mem_take hm, hp⟩

theorem filter_perm_eq_of_le_one (o1 o2 base : List String) (p : String → Bool)
    (h1 : o1.Perm base) (h2 : o2.Perm base) (hlen : (base.filter p).length ≤ 1) :
    o1.filter p = o2.filter p := by
  have e1 : (o1.filter p).Perm (base.filter p) := h1.filter p
  have e2 : (o2.filter p).Perm (base.filter p) := h2.filter p
  match hb : base.filter p with
  | [] =>
    rw [hb] at e1 e2
    rw [List.perm_nil.mp e1, List.perm_nil.mp e2]
  | [a] =>
    rw [hb] at e1 e2
    rw [List.perm_singleton.mp e1, List.perm_singleton.mp e2]
  | a :: b :: rest =>
    rw [hb] at hlen
    simp at hlen

theorem createSimpleSummary_congr (o1 o2 : List String) (messages : List Message)
    (h : extractTopics o1 messages = extractTopics o2 messages) :
    createSimpleSummary o1 messages = createSimpleSummary o2 messages := by
  unfold createSimpleSummary
  rw [h]

theorem summarizeBuildContext_congr (o1 o2 : List String) (sp ap : String)
    (messages : List Message) (config : Input)
    (h : ∀ t : Nat, createSimpleSummary o1 (messages.take t) =
      createSimpleSummary o2 (messages.take t)) :
    summarizeBuildContext o1 sp ap messages config =
      summarizeBuildContext o2 sp ap messages config := by
  unfold summarizeBuildContext
  simp only [h]

end ctx

/-- History for the C6 counterexample: the summarized prefix mentions both
the code and the bug topic keywords. -/
def histC6 : List ctx.Message :=
  [ ctx.Message.mk "user" "the code is broken"
  , ctx.Message.mk "assistant" "there is a bug"
  , ctx.Message.mk "user" "please look"
  , ctx.Message.mk "user" "thanks" ]

/-- Config for the C6 counterexample: summarization triggers and keeps one
recent message. -/
def cfgC6 : Input := [("max_context_length", .vNum 2), ("keep_recent", .vNum 1)]

/-- An alternate iteration order of the topicWords map, with bug before
code. -/
def ordC6 : List String :=
  ["bug", "programming", "code", "error", "help", "question", "problem", "solution"]

/-- C6, counterexample: the Summarize strategy is not a deterministic
function of systemPrompt, agentPrompt, history and config alone.  Its
topic hints are collected by ranging over a Go map, whose iteration order
the runtime randomizes; under two valid iteration orders of the same map
the same inputs produce different output message lists (topics code, bug
versus bug, code inside the summary message). -/
theorem C6_counterexample :
    ordC6.Perm ctx.topicKeys
    ∧ (ctx.strategyBuildContext "summarize" ctx.topicKeys "sp" "" histC6 cfgC6).map
        (fun e => e.toOption)
      ≠ (ctx.strategyBuildContext "summarize" ordC6 "sp" "" histC6 cfgC6).map
        (fun e => e.toOption) := by
  constructor
  · decide
  · decide

/-- C6 (amended): every context strategy is a pure function of its inputs
up to the iteration order of the topicWords map: LastN and SlidingWindow
do not consume that order at all, and Summarize produces identical output
lists for any two valid iteration orders whenever at most one topic
keyword occurs in the history (the order can only permute the topic hints
inside the single summary message). -/
theorem C6_strategies_deterministic_up_to_topic_order
    (name : String) (o1 o2 : List String) (sp ap : String)
    (messages : List ctx.Message) (config : Input)
    (h1 : o1.Perm ctx.topicKeys) (h2 : o2.Perm ctx.topicKeys)
    (htop : name = "summarize" →
      (ctx.topicKeys.filter (ctx.topicFound messages)).length ≤ 1) :
    ctx.strategyBuildContext name o1 sp ap messages config =
      ctx.strategyBuildContext name o2 sp ap messages config := by
  unfold ctx.strategyBuildContext
  by_cases hl : name = "last_n"
  · simp [hl]
  · by_cases hs : name = "sliding_window"
    · simp [hl, hs]
    · by_cases hsum : name = "summarize"
      · simp only [hl, hs, hsum, if_neg, if_pos rfl, if_true]
        refine congrArg some (ctx.summarizeBuildContext_congr o1 o2 sp ap messages config ?_)
        intro t
        refine ctx.createSimpleSummary_congr o1 o2 _ ?_
        refine ctx.filter_perm_eq_of_le_one o1 o2 ctx.topicKeys _ h1 h2 ?_
        have hmono : (ctx.topicKeys.filter (ctx.topicFound (messages.take t))).Sublist
            (ctx.topicKeys.filter (ctx.topicFound messages)) :=
          List.monotone_filter_right _ (fun a ha => ctx.topicFound_mono messages t a ha)
        exact le_trans hmono.length_le (htop hsum)
      · simp [hl, hs, hsum]

/-- History for the C6 witness, mentioning only the bug topic keyword. -/
def histC6w : List ctx.Message :=
  [ ctx.Message.mk "user" "there is a bug"
  , ctx.Message.mk "assistant" "indeed"
  , ctx.Message.mk "user" "please look"
  , ctx.Message.mk "user" "thanks" ]

/-- C6, witness: with at most one topic keyword in the history, the two
iteration orders of the counterexample produce identical summarize
outputs. -/
theorem C6_witness :
    ctx.strategyBuildContext "summarize" ctx.topicKeys "sp" "" histC6w cfgC6 =
      ctx.strategyBuildContext "summarize" ordC6 "sp" "" histC6w cfgC6 :=
  C6_strategies_deterministic_up_to_topic_order "summarize" ctx.topicKeys ordC6 "sp" ""
    histC6w cfgC6 (List.Perm.refl _) (by decide) (fun _ => by decide)

/-- C7, amended theorem: for every history strictly longer than the
max_context_length m with more than keep_recent k messages and positive
parameters, Summarize returns the system message, exactly one synthetic
summary message of role system, then exactly the most recent k history
messages verbatim. -/
theorem C7_summarize_summary_shape
    (order : List String) (sp ap : String) (messages : List ctx.Message) (config : Input)
    (m k : Int)
    (hm : ctx.getIntConfig config "max_context_length" 20 = m)
    (hk : ctx.getIntConfig config "keep_recent" 5 = k)
    (hmpos : 0 < m) (hkpos : 0 < k)
    (hlenm : m < (messages.length : Int))
    (hlenk : k < (messages.length : Int)) :
    ctx.summarizeBuildContext order sp ap messages config =
      .ok (ctx.Message.mk "system" (ctx.buildSystemMessage sp ap)
        :: ctx.Message.mk "system" ("Previous conversation summary: " ++
            ctx.createSimpleSummary order (messages.take (messages.length - k.toNat)))
        :: messages.drop (messages.length - k.toNat))
    ∧ (messages.drop (messages.length - k.toNat)).length = k.toNat := by
  have hguard : ¬ (m ≤ 0 ∨ k ≤ 0) := by omega
  have hlem : ¬ ((messages.length : Int) ≤ m) := by omega
  have hmts : ¬ ((messages.length : Int) - k ≤ 0) := by omega
  have hdt : ((messages.length : Int) - k).toNat = messages.length - k.toNat := by omega
  have htkne : messages.take (messages.length - k.toNat) ≠ [] := by
    intro he
    have := congrArg List.length he
    rw [List.length_take] at this
    simp at this
    omega
  have hsum := ctx.createSimpleSummary_ne_empty order
    (messages.take (messages.length - k.toNat)) htkne
  constructor
  · simp only [ctx.summarizeBuildContext, hm, hk, if_neg hguard, if_neg hlem, if_neg hmts, hdt]
    rw [if_pos hsum]
    simp
  · rw [List.length_drop]
    omega

/-- History for the C7 counterexample and witness. -/
def histC7 : List ctx.Message :=
  [ ctx.Message.mk "user" "a", ctx.Message.mk "assistant" "b"
  , ctx.Message.mk "user" "c", ctx.Message.mk "user" "d" ]

/-- Config for the C7 counterexample: summarization triggers (m below the
history length) but keep_recent exceeds the history length. -/
def cfgC7 : Input := [("max_context_length", .vNum 2), ("keep_recent", .vNum 5)]

/-- C7, counterexample: with valid positive parameters m equal 2 and k
equal 5 and a history of 4 messages (strictly longer than m), Summarize
returns the system message followed by the whole history unmodified: there
is no synthetic summary message and the trailing segment has 4 messages,
not k, because the count of messages to summarize is not positive. -/
theorem C7_counterexample :
    ctx.getIntConfig cfgC7 "max_context_length" 20 = 2
    ∧ ctx.getIntConfig cfgC7 "keep_recent" 5 = 5
    ∧ (2 : Int) < histC7.length
    ∧ ctx.summarizeBuildContext ctx.topicKeys "sp" "" histC7 cfgC7 =
        .ok (ctx.Message.mk "system" "sp" :: histC7)
    ∧ (ctx.Message.mk "system" "sp" :: histC7).length ≠ 1 + 1 + 5 := by
  refine ⟨by decide, by decide, by decide, rfl, by decide⟩

/-- Config for the C7 witness: m equal 2 and k equal 1. -/
def cfgC7w : Input := [("max_context_length", .vNum 2), ("keep_recent", .vNum 1)]

/-- C7, witness: the amended theorem on the 4-message history with k equal
1 yields the system message, one summary message and the single trailing
message. -/
theorem C7_witness :
    ctx.summarizeBuildContext ctx.topicKeys "sp" "" histC7 cfgC7w =
      .ok (ctx.Message.mk "system" "sp"
        :: ctx.Message.mk "system" ("Previous conversation summary: " ++
            ctx.createSimpleSummary ctx.topicKeys (histC7.take 3))
        :: histC7.drop 3)
    ∧ (histC7.drop 3).length = 1 := by
  have h := C7_summarize_summary_shape ctx.topicKeys "sp" "" histC7 cfgC7w 2 1
    rfl rfl (by decide) (by decide) (by decide) (by decide)
  exact ⟨h.1, h.2⟩

/-- C8: for every valid configuration (w positive, overlap nonnegative and
below w), SlidingWindow over a history strictly longer than w plus o
returns exactly 1 plus w plus o messages, the system message followed by
the last w plus o history messages in original order, and over a history
of at most w plus o messages returns the system message followed by all of
the history. -/
theorem C8_sliding_window_shape
    (sp ap : String) (messages : List ctx.Message) (config : Input)
    (w o : Int)
    (hw : ctx.getIntConfig config "window_size" 5 = w)
    (ho : ctx.getIntConfig config "overlap" 2 = o)
    (hwpos : 0 < w) (hoge : 0 ≤ o) (holt : o < w) :
    (w + o < (messages.length : Int) →
      ctx.slidingWindowBuildContext sp ap messages config =
        .ok (ctx.Message.mk "system" (ctx.buildSystemMessage sp ap)
          :: messages.drop (messages.length - (w + o).toNat))
      ∧ (ctx.Message.mk "system" (ctx.buildSystemMessage sp ap)
          :: messages.drop (messages.length - (w + o).toNat)).length = 1 + (w + o).toNat)
    ∧ ((messages.length : Int) ≤ w + o →
      ctx.slidingWindowBuildContext sp ap messages config =
        .ok (ctx.Message.mk "system" (ctx.buildSystemMessage sp ap) :: messages)) := by
  have hguard1 : ¬ w ≤ 0 := by omega
  have hguard2 : ¬ (o < 0 ∨ o ≥ w) := by omega
  constructor
  · intro hlen
    have hlew : ¬ ((messages.length : Int) ≤ w) := by omega
    have hstart : (messages.length : Int) - w > o := by omega
    have hdt : ((messages.length : Int) - w - o).toNat = messages.length - (w + o).toNat := by
      omega
    have htake : (messages.drop (messages.length - (w + o).toNat)).take ((w + o).toNat) =
        messages.drop (messages.length - (w + o).toNat) := by
      apply List.take_of_length_le
      rw [List.length_drop]
      omega
    constructor
    · simp only [ctx.slidingWindowBuildContext, hw, ho, if_neg hguard1, if_neg hguard2,
        if_neg hlew, if_pos hstart]
      rw [hdt, htake]
    · rw [List.length_cons, List.length_drop]
      omega
  · intro hlen
    by_cases hlw : (messages.length : Int) ≤ w
    · simp only [ctx.slidingWindowBuildContext, hw, ho, if_neg hguard1, if_neg hguard2,
        if_pos hlw]
    · have hstart : ¬ ((messages.length : Int) - w > o) := by omega
      simp only [ctx.slidingWindowBuildContext, hw, ho, if_neg hguard1, if_neg hguard2,
        if_neg hlw, if_neg hstart]
      simp [List.take_length]

/-- History of 12 messages for the C8 witness (the specification scenario
with window_size 3 and overlap 1 producing a 5-message context). -/
def histC8 : List ctx.Message :=
  (List.range 12).map (fun i => ctx.Message.mk "user" (toString i))

/-- Config for the C8 witness. -/
def cfgC8 : Input := [("window_size", .vNum 3), ("overlap", .vNum 1)]

/-- C8, witness: 12 stored messages with window_size 3 and overlap 1 give
the system message plus the last 4 messages, 5 messages in total. -/
theorem C8_witness :
    ctx.slidingWindowBuildContext "S" "" histC8 cfgC8 =
      .ok (ctx.Message.mk "system" "S" :: histC8.drop 8)
    ∧ (ctx.Message.mk "system" "S" :: histC8.drop 8).length = 5 := by
  have h := (C8_sliding_window_shape "S" "" histC8 cfgC8 3 1 rfl rfl
    (by decide) (by decide) (by decide)).1 (by decide)
  exact ⟨h.1, h.2⟩

/-! ### Claims C4 and C5: the conversation loop -/

namespace services

theorem executeSingleToolCall_id (ts : ToolServiceEnv) (call : LLMToolCall)
    (env : tools.ExecEnv) : (executeSingleToolCall ts call env).id = call.id := by
  unfold executeSingleToolCall
  match call.arguments with
  | none => rfl
  | some args =>
    match ts.agentID with
    | none => rfl
    | some a => rfl

theorem iterationsFrom_le (env : TurnEnv) (fuel : Nat) :
    ∀ (iteration : Nat) (conv : List ctx.Message) (acc : List ToolCallResult),
      iterationsFrom env iteration fuel conv acc ≤ fuel := by
  induction fuel with
  | zero => intro iteration conv acc; exact le_refl 0
  | succ n ih =>
    intro iteration conv acc
    unfold iterationsFrom
    cases hts : turnStep env iteration conv acc with
    | next c a =>
      have hrec := ih (iteration + 1) c a
      simp only []
      omega
    | abort e => simp
    | final r f t => simp

theorem runTurn_exhausts (env : TurnEnv) (fuel : Nat) :
    ∀ (iteration : Nat) (conv : List ctx.Message) (acc : List ToolCallResult),
      (∀ i conv' acc', iteration ≤ i → i < iteration + fuel →
        ∃ c a, turnStep env i conv' acc' = .next c a) →
      runTurn env iteration fuel conv acc = .error .maxIterationsExceeded
      ∧ iterationsFrom env iteration fuel conv acc = fuel := by
  induction fuel with
  | zero => intro iteration conv acc _; exact ⟨rfl, rfl⟩
  | succ n ih =>
    intro iteration conv acc hstep
    obtain ⟨c, a, hs⟩ := hstep iteration conv acc (le_refl _) (by omega)
    have ih' := ih (iteration + 1) c a
      (fun i conv' acc' h1 h2 => hstep i conv' acc' (by omega) (by omega))
    refine ⟨?_, ?_⟩
    · unfold runTurn
      simp only [hs]
      exact ih'.1
    · unfold iterationsFrom
      simp only [hs]
      omega

end services

/-- C4: for every turn environment whose strategy exists and always
succeeds, whose provider phase yields a response requesting tool calls at
each of the first five iterations, and whose assistant-message saves
succeed, processWithToolCalls executes exactly 5 iterations of its loop
and then fails with the exceeded-maximum-iterations error; and no turn in
any environment ever executes more than 5 iterations. -/
theorem C4_turn_bounded_by_five_iterations
    (env : services.TurnEnv) (history : List ctx.Message)
    (hstrat : ∃ strat, env.strategy = some strat ∧ ∀ conv, ∃ l, strat conv = .ok l)
    (hprov : ∀ i, i < 5 → ∃ resp toolCalls,
      env.provider i = .ok resp toolCalls ∧ toolCalls ≠ [])
    (hsave : ∀ i, i < 5 → env.saveAssistant i = true) :
    services.processWithToolCalls env history = .error .maxIterationsExceeded
    ∧ services.iterationsUsed env history = 5
    ∧ ∀ (env' : services.TurnEnv) (history' : List ctx.Message),
        services.iterationsUsed env' history' ≤ 5 := by
  obtain ⟨strat, hsome, hok⟩ := hstrat
  have hstep : ∀ i conv acc, 0 ≤ i → i < 0 + 5 →
      ∃ c a, services.turnStep env i conv acc = .next c a := by
    intro i conv acc _ hi5
    obtain ⟨l, hl⟩ := hok conv
    obtain ⟨resp, tcs, hpr, hne⟩ := hprov i (by omega)
    have hie : tcs.isEmpty = false := by
      cases tcs with
      | nil => exact absurd rfl hne
      | cons x xs => rfl
    match hts : services.turnStep env i conv acc with
    | .next c a => exact ⟨c, a, rfl⟩
    | .abort e =>
      simp [services.turnStep, hsome, hl, hpr, hie, hsave i (by omega)] at hts
    | .final r f t =>
      simp [services.turnStep, hsome, hl, hpr, hie, hsave i (by omega)] at hts
  have h := services.runTurn_exhausts env 5 0 history [] hstep
  exact ⟨h.1, h.2, fun env' history' => services.iterationsFrom_le env' 5 0 history' []⟩

/-- Turn environment of the C4 witness: the provider requests the same
tool call at every iteration and every save succeeds. -/
def envC4 : services.TurnEnv :=
  { strategy := some (fun conv => .ok conv)
    provider := fun _ => .ok { content := "go" }
      [({ id := "c1", name := "t", arguments := some [] }, {})]
    toolService := { registry := [], agentID := some "agent" }
    saveAssistant := fun _ => true
    saveToolMessage := fun _ _ => true }

/-- C4, witness: the never-finalizing environment runs exactly 5
iterations and fails with the exceeded-maximum-iterations error. -/
theorem C4_witness :
    services.processWithToolCalls envC4 [] = .error .maxIterationsExceeded
    ∧ services.iterationsUsed envC4 [] = 5 := by
  have h := C4_turn_bounded_by_five_iterations envC4 []
    ⟨fun conv => .ok conv, rfl, fun conv => ⟨conv, rfl⟩⟩
    (fun i _ => ⟨{ content := "go" },
      [({ id := "c1", name := "t", arguments := some [] }, {})], rfl, List.cons_ne_nil _ _⟩)
    (fun i _ => rfl)
  exact ⟨h.1, h.2.1⟩

/-- C5: in every iteration whose provider response requests a nonempty
list of tool calls (with the strategy, provider and assistant save
succeeding), the turn is not aborted even if requested calls fail: the
step continues to the next iteration with the conversation extended by the
assistant message and the saved tool-result messages; there is exactly one
ToolCallResult per requested call, correlated by call id; a call with
malformed arguments, an unknown tool name, an unavailable tool, or input
that fails sanitization is recorded as a failed result; and every produced
tool-result message has role tool and the id of its call. -/
theorem C5_tool_failure_recorded_and_loop_continues
    (env : services.TurnEnv) (i : Nat) (conv : List ctx.Message)
    (acc : List services.ToolCallResult)
    (strat : List ctx.Message → Except String (List ctx.Message))
    (ctxMsgs : List ctx.Message) (resp : services.ChatResp)
    (toolCalls : List (services.LLMToolCall × tools.ExecEnv))
    (hstrat : env.strategy = some strat)
    (hctx : strat conv = .ok ctxMsgs)
    (hprov : env.provider i = .ok resp toolCalls)
    (hne : toolCalls ≠ [])
    (hsave : env.saveAssistant i = true) :
    (services.turnStep env i conv acc =
      .next ((conv ++ [ctx.Message.mk "assistant" resp.content]) ++
          services.savedToolMessages (env.saveToolMessage i)
            (services.CreateToolResultMessages
              (services.ExecuteToolCalls env.toolService toolCalls)))
        (acc ++ services.ExecuteToolCalls env.toolService toolCalls))
    ∧ (services.ExecuteToolCalls env.toolService toolCalls).length = toolCalls.length
    ∧ (services.ExecuteToolCalls env.toolService toolCalls).map services.ToolCallResult.id =
        toolCalls.map (fun p => p.1.id)
    ∧ (∀ p ∈ toolCalls, p.1.arguments = none →
        (services.executeSingleToolCall env.toolService p.1 p.2).success = false)
    ∧ (∀ p ∈ toolCalls, tools.registryGet env.toolService.registry p.1.name = none →
        (services.executeSingleToolCall env.toolService p.1 p.2).success = false)
    ∧ (∀ p ∈ toolCalls, ∀ bt, tools.registryGet env.toolService.registry p.1.name = some bt →
        bt.available = false →
        (services.executeSingleToolCall env.toolService p.1 p.2).success = false)
    ∧ (∀ p ∈ toolCalls, ∀ args bt e, p.1.arguments = some args →
        env.toolService.agentID.isSome = true →
        tools.registryGet env.toolService.registry p.1.name = some bt →
        bt.available = true →
        tools.SanitizeInput bt.schema args = .error e →
        (services.executeSingleToolCall env.toolService p.1 p.2).success = false)
    ∧ (∀ msg ∈ services.CreateToolResultMessages
          (services.ExecuteToolCalls env.toolService toolCalls), msg.role = "tool")
    ∧ (services.CreateToolResultMessages
          (services.ExecuteToolCalls env.toolService toolCalls)).map
        services.ToolMessage.toolCallID = toolCalls.map (fun p => p.1.id) := by
  have hie : toolCalls.isEmpty = false := by
    cases toolCalls with
    | nil => exact absurd rfl hne
    | cons x xs => rfl
  have hids : (services.ExecuteToolCalls env.toolService toolCalls).map
      services.ToolCallResult.id = toolCalls.map (fun p => p.1.id) := by
    unfold services.ExecuteToolCalls
    rw [List.map_map]
    refine List.map_congr_left (fun p _ => ?_)
    exact services.executeSingleToolCall_id env.toolService p.1 p.2
  refine ⟨?_, ?_, hids, ?_, ?_, ?_, ?_, ?_, ?_⟩
  · simp [services.turnStep, hstrat, hctx, hprov, hie, hsave]
  · simp [services.ExecuteToolCalls]
  · intro p _ hargs
    simp [services.executeSingleToolCall, hargs]
  · intro p _ hreg
    match hargs : p.1.arguments with
    | none => simp [services.executeSingleToolCall, hargs]
    | some args =>
      match hag : env.toolService.agentID with
      | none => simp [services.executeSingleToolCall, hargs, hag]
      | some a =>
        simp [services.executeSingleToolCall, hargs, hag,
          services.executeToolWithContext, hreg, tools.ErrorResult]
  · intro p _ bt hreg hav
    match hargs : p.1.arguments with
    | none => simp [services.executeSingleToolCall, hargs]
    | some args =>
      match hag : env.toolService.agentID with
      | none => simp [services.executeSingleToolCall, hargs, hag]
      | some a =>
        simp [services.executeSingleToolCall, hargs, hag,
          services.executeToolWithContext, hreg, hav, tools.ErrorResult]
  · intro p _ args bt e hargs hag hreg hav hsan
    obtain ⟨a, ha⟩ := Option.isSome_iff_exists.mp hag
    simp [services.executeSingleToolCall, hargs, ha,
      services.executeToolWithContext, hreg, hav, tools.BaseTool.Execute, hsan]
  · intro msg hmsg
    unfold services.CreateToolResultMessages at hmsg
    obtain ⟨r, _, hr⟩ := List.mem_map.mp hmsg
    rw [← hr]
  · unfold services.CreateToolResultMessages
    rw [List.map_map]
    exact hids

/-- Turn environment of the C5 witness: an empty registry, so the single
requested call fails with an unknown tool name. -/
def envC5 : services.TurnEnv :=
  { strategy := some (fun conv => .ok conv)
    provider := fun _ => .ok { content := "calling" }
      [({ id := "c9", name := "nosuch", arguments := some [] }, {})]
    toolService := { registry := [], agentID := some "agent" }
    saveAssistant := fun _ => true
    saveToolMessage := fun _ _ => true }

/-- The single tool call the C5 witness environment requests. -/
def callC5 : services.LLMToolCall × tools.ExecEnv :=
  ({ id := "c9", name := "nosuch", arguments := some [] }, {})

/-- C5, witness: an iteration requesting one call to an unregistered tool
records a failed result with the call id and continues to the next
iteration instead of aborting. -/
theorem C5_witness :
    (services.executeSingleToolCall envC5.toolService callC5.1 callC5.2).success = false
    ∧ services.turnStep envC5 0 [] [] =
      .next (([] ++ [ctx.Message.mk "assistant" "calling"]) ++
          services.savedToolMessages (envC5.saveToolMessage 0)
            (services.CreateToolResultMessages
              (services.ExecuteToolCalls envC5.toolService [callC5])))
        ([] ++ services.ExecuteToolCalls envC5.toolService [callC5]) := by
  have h := C5_tool_failure_recorded_and_loop_continues envC5 0 [] []
    (fun conv => .ok conv) [] { content := "calling" } [callC5]
    rfl rfl rfl (List.cons_ne_nil _ _) rfl
  exact ⟨h.2.2.2.2.1 callC5 (List.mem_cons_self _ _) rfl, h.1⟩

end GoAgent
